import Mathlib

/-!
# Verification of `daily_paper_bot.py`

A shallow embedding of the core pipeline of `daily_paper_bot.py`
(text normalisation, keyword classification, grouping, markdown
rendering), together with theorems checking the specification's
claims against it.

Strings are modelled as Lean `String` (a packed `List Char`);
Python's `in` substring test, `str.lower`, `str.strip`,
`str.replace`, `", ".join` and list slicing are embedded as
executable functions over the character list.  Network I/O,
`print` logging and the final file write are collaborator-facing
side effects outside the embedded core.
-/

/-- Python `list.startswith`-style check: `pat` is a prefix of `l`. -/
def startsWithList : List Char → List Char → Bool
  | [], _ => true
  | _ :: _, [] => false
  | a :: as, b :: bs => a == b && startsWithList as bs

/-- Python's substring containment `pat in l` (empty pattern always matches). -/
def containsSub : List Char → List Char → Bool
  | pat, [] => pat.isEmpty
  | pat, c :: rest => startsWithList pat (c :: rest) || containsSub pat rest

/-- `kw in text` from the source: substring containment on strings. -/
def occursIn (kw text : String) : Bool :=
  containsSub kw.data text.data

/-- Python `str.lower` (ASCII case folding, the only case the keywords use). -/
def pyLower (s : String) : String :=
  String.mk (s.data.map Char.toLower)

/-- Python `str.strip`: drop leading and trailing whitespace. -/
def pyStrip (s : String) : String :=
  String.mk (((s.data.dropWhile Char.isWhitespace).reverse.dropWhile
    Char.isWhitespace).reverse)

/-- `clean_text` from the source: `text.replace('\n', ' ').strip()`. -/
def clean_text (text : String) : String :=
  pyStrip (String.mk (text.data.map (fun c => if c = '\n' then ' ' else c)))

/-- The fixed arXiv query string (configuration constant). -/
def QUERY : String :=
  "all:neuromorphic OR all:\"spiking neural network\" OR all:memristor OR all:\"in-memory computing\" OR all:\"event-based vision\""

/-- The fixed maximum result count (configuration constant). -/
def MAX_RESULTS : Nat := 30

/-- Keyword list of the `"🛠 Hardware & Materials"` category. -/
def hardware_keywords : List String :=
  ["memristor", "rram", "pcm", "device", "material", "circuit", "cmos",
   "transistor", "fpga", "accelerator", "chip", "integrated", "hardware",
   "synaptic device", "crossbar", "conductance"]

/-- Keyword list of the `"🧠 Algorithms & Theory"` category. -/
def algorithms_keywords : List String :=
  ["plasticity", "stdp", "learning rule", "backpropagation", "dynamics",
   "bifurcation", "chaos", "neuron model", "snn", "spiking", "theory",
   "optimization", "encoding", "decoding", "information", "liquid state"]

/-- Keyword list of the `"👁️ Applications & Sensing"` category. -/
def applications_keywords : List String :=
  ["vision", "camera", "dvs", "event-based", "sensor", "tactile", "skin",
   "robot", "recognition", "classification", "detection", "tracking",
   "audio", "speech", "gesture", "uav", "drone"]

/-- The `CATEGORIES` dict of the source, in insertion (= iteration) order. -/
def CATEGORIES : List (String × List String) :=
  [("🛠 Hardware & Materials", hardware_keywords),
   ("🧠 Algorithms & Theory", algorithms_keywords),
   ("👁️ Applications & Sensing", applications_keywords)]

/-- The fallback category name used when no keyword matches. -/
def fallback_category : String := "📂 General / Uncategorized"

/-- The inner scoring loop of `classify_paper`: starting from `scores[cat] = 0`,
`scores[cat] += 1` for each keyword contained in `text`. -/
def score (keywords : List String) (text : String) : Nat :=
  keywords.foldl (fun s kw => if occursIn kw text then s + 1 else s) 0

/-- The `scores` dict after the loops of `classify_paper`, in key insertion order. -/
def category_scores (text : String) : List (String × Nat) :=
  CATEGORIES.map (fun p => (p.1, score p.2 text))

/-- Python `max(scores, key=scores.get)` over the dict in iteration order:
the first key attaining the maximal value wins (replace only on strictly
greater). Returns the whole entry; the source uses its key. -/
def dict_max : List (String × Nat) → String × Nat
  | [] => ("", 0)
  | p :: ps => ps.foldl (fun best q => if q.2 > best.2 then q else best) p

/-- Dict lookup `scores[c]` on the association list (0 for an absent key,
which never happens on the keys the source uses). -/
def getScore : List (String × Nat) → String → Nat
  | [], _ => 0
  | g :: gs, c => if g.1 = c then g.2 else getScore gs c

/-- `classify_paper(title, summary)` from the source. -/
def classify_paper (title summary : String) : String :=
  let text := pyLower (title ++ " " ++ summary)
  let scores := category_scores text
  let best_cat := (dict_max scores).1
  if getScore scores best_cat = 0 then fallback_category else best_cat

/-- The lowercased `title + " " + summary` text `classify_paper` matches against. -/
def combinedText (title summary : String) : String :=
  pyLower (title ++ " " ++ summary)

example : classify_paper "SNNcore paper" "" = "🧠 Algorithms & Theory" := by decide
example : classify_paper "" "" = "📂 General / Uncategorized" := by decide
example : classify_paper "snn vision" "" = "🧠 Algorithms & Theory" := by decide

/-- A calendar date, the day-precision part of `result.published`. -/
structure Date where
  year : Nat
  month : Nat
  day : Nat
deriving DecidableEq

/-- One arXiv result record, as the fields the script reads
(`title`, `summary`, `entry_id`, `published`, author names). -/
structure Paper where
  title : String
  summary : String
  entry_id : String
  published : Date
  authors : List String
deriving DecidableEq

/-- `paper_groups[c].append(p)`: append `p` to the bucket keyed `c`. -/
def appendTo (groups : List (String × List Paper)) (c : String) (p : Paper) :
    List (String × List Paper) :=
  groups.map (fun g => if g.1 = c then (g.1, g.2 ++ [p]) else g)

/-- The initial `paper_groups` dict: one empty bucket per category in
`CATEGORIES` order, then the explicitly added fallback bucket. -/
def initial_groups : List (String × List Paper) :=
  CATEGORIES.map (fun p => (p.1, [])) ++ [(fallback_category, [])]

/-- The grouping loop of `main`: classify each result in input order and
append it to the bucket named by the classification. -/
def group_papers (results : List Paper) : List (String × List Paper) :=
  results.foldl
    (fun gs p => appendTo gs (classify_paper p.title p.summary) p)
    initial_groups

/-- `paper_groups.get(c, [])`: first bucket keyed `c`, empty list if absent. -/
def bucket : List (String × List Paper) → String → List Paper
  | [], _ => []
  | g :: gs, c => if g.1 = c then g.2 else bucket gs c

/-- Zero-pad a number to two digits (`strftime` `%m` / `%d`). -/
def pad2 (n : Nat) : String :=
  if n < 10 then "0" ++ toString n else toString n

/-- `p.published.strftime('%Y-%m-%d')`. -/
def format_pub_date (d : Date) : String :=
  toString d.year ++ "-" ++ pad2 d.month ++ "-" ++ pad2 d.day

/-- The author-summary string of `main`: first three names joined with
`", "` plus `" et al."` when there are more than three, else all names. -/
def author_summary (authors : List String) : String :=
  if authors.length > 3 then
    String.intercalate ", " (authors.take 3) ++ " et al."
  else
    String.intercalate ", " authors

/-- The markdown block `main` appends for one paper. -/
def render_paper (p : Paper) : String :=
  "### [" ++ p.title ++ "](" ++ p.entry_id ++ ")\n" ++
  "**" ++ format_pub_date p.published ++ "** | *" ++
    author_summary p.authors ++ "*\n\n" ++
  "> " ++ clean_text p.summary ++ "\n\n"

/-- The `display_order` list of `main` (must match `CATEGORIES` keys exactly). -/
def display_order : List String :=
  ["🛠 Hardware & Materials", "🧠 Algorithms & Theory",
   "👁️ Applications & Sensing", "📂 General / Uncategorized"]

/-- The fixed document header: title, automated-update line with the run
timestamp, and the static explanatory line. -/
def header_block (formatted_time : String) : String :=
  "# 🧠 Open Neuromorphic - Daily ArXiv\n\n" ++
  "**Automated Daily Update** | Last Run: " ++ formatted_time ++ "\n\n" ++
  "Papers are automatically categorized by topic and sorted by date.\n\n"

/-- The full `md_content` string built by `main`, with the run timestamp
(already `strftime`-formatted) passed in. -/
def generate_markdown (results : List Paper) (formatted_time : String) : String :=
  let paper_groups := group_papers results
  let md0 := header_block formatted_time
  if results.isEmpty then
    md0 ++ "### 😴 No new papers found today.\n" ++ "Check back tomorrow!"
  else
    display_order.foldl
      (fun md category =>
        let papers := bucket paper_groups category
        if papers.isEmpty then md
        else
          (papers.foldl (fun md2 p => md2 ++ render_paper p)
            (md ++ ("## " ++ category ++ "\n\n"))) ++ "---\n\n")
      md0

/-!
## Classifier lemmas
-/

lemma score_foldl_eq (text : String) (kws : List String) :
    ∀ a : Nat,
      kws.foldl (fun s kw => if occursIn kw text then s + 1 else s) a
        = a + kws.countP (fun kw => occursIn kw text) := by
  induction kws with
  | nil => intro a; simp
  | cons kw kws ih =>
    intro a
    simp only [List.foldl_cons, List.countP_cons, ih]
    by_cases h : occursIn kw text
    · simp [h]; omega
    · simp [h]

/-- The scoring loop counts the keywords present in the text, each once. -/
lemma score_eq_countP (kws : List String) (text : String) :
    score kws text = kws.countP (fun kw => occursIn kw text) := by
  simpa using score_foldl_eq text kws 0

/-- A category scores 0 exactly when none of its keywords occurs. -/
lemma score_eq_zero_iff (kws : List String) (text : String) :
    score kws text = 0 ↔ ∀ kw ∈ kws, ¬ occursIn kw text := by
  rw [score_eq_countP, List.countP_eq_zero]

lemma dict_max3 (s1 s2 s3 : Nat) (n1 n2 n3 : String) :
    dict_max [(n1, s1), (n2, s2), (n3, s3)]
      = if s1 < s2 then (if s2 < s3 then (n3, s3) else (n2, s2))
        else (if s1 < s3 then (n3, s3) else (n1, s1)) := by
  simp only [dict_max, List.foldl_cons, List.foldl_nil]
  by_cases h12 : s1 < s2
  · rw [if_pos h12, if_pos h12]
  · rw [if_neg h12, if_neg h12]

lemma getScore3_hw (s1 s2 s3 : Nat) :
    getScore [("🛠 Hardware & Materials", s1), ("🧠 Algorithms & Theory", s2),
      ("👁️ Applications & Sensing", s3)] "🛠 Hardware & Materials" = s1 := rfl

lemma getScore3_alg (s1 s2 s3 : Nat) :
    getScore [("🛠 Hardware & Materials", s1), ("🧠 Algorithms & Theory", s2),
      ("👁️ Applications & Sensing", s3)] "🧠 Algorithms & Theory" = s2 := rfl

lemma getScore3_app (s1 s2 s3 : Nat) :
    getScore [("🛠 Hardware & Materials", s1), ("🧠 Algorithms & Theory", s2),
      ("👁️ Applications & Sensing", s3)] "👁️ Applications & Sensing" = s3 := rfl

/-- The selection made from the three scores: tie-break by iteration order
(replace only on strictly greater), fallback exactly on an all-zero score
vector. -/
lemma classify_pick (s1 s2 s3 : Nat) :
    (if getScore [("🛠 Hardware & Materials", s1), ("🧠 Algorithms & Theory", s2),
          ("👁️ Applications & Sensing", s3)]
        (dict_max [("🛠 Hardware & Materials", s1), ("🧠 Algorithms & Theory", s2),
          ("👁️ Applications & Sensing", s3)]).1 = 0
     then fallback_category
     else (dict_max [("🛠 Hardware & Materials", s1), ("🧠 Algorithms & Theory", s2),
          ("👁️ Applications & Sensing", s3)]).1)
    = if s1 = 0 ∧ s2 = 0 ∧ s3 = 0 then fallback_category
      else if s1 < s2 then
        (if s2 < s3 then "👁️ Applications & Sensing" else "🧠 Algorithms & Theory")
      else if s1 < s3 then "👁️ Applications & Sensing"
      else "🛠 Hardware & Materials" := by
  rw [dict_max3]
  by_cases h12 : s1 < s2
  · rw [if_pos h12, if_pos h12]
    by_cases h23 : s2 < s3
    · rw [if_pos h23, if_pos h23]
      show (if s3 = 0 then fallback_category else _) = _
      rw [if_neg (by omega : ¬ s3 = 0),
        if_neg (by omega : ¬ (s1 = 0 ∧ s2 = 0 ∧ s3 = 0))]
    · rw [if_neg h23, if_neg h23]
      show (if s2 = 0 then fallback_category else _) = _
      rw [if_neg (by omega : ¬ s2 = 0),
        if_neg (by omega : ¬ (s1 = 0 ∧ s2 = 0 ∧ s3 = 0))]
  · rw [if_neg h12, if_neg h12]
    by_cases h13 : s1 < s3
    · rw [if_pos h13, if_pos h13]
      show (if s3 = 0 then fallback_category else _) = _
      rw [if_neg (by omega : ¬ s3 = 0),
        if_neg (by omega : ¬ (s1 = 0 ∧ s2 = 0 ∧ s3 = 0))]
    · rw [if_neg h13, if_neg h13]
      show (if s1 = 0 then fallback_category else _) = _
      by_cases h0 : s1 = 0
      · rw [if_pos h0, if_pos (by omega : s1 = 0 ∧ s2 = 0 ∧ s3 = 0)]
      · rw [if_neg h0, if_neg (by omega : ¬ (s1 = 0 ∧ s2 = 0 ∧ s3 = 0))]

/-- `classify_paper` characterised in terms of the three category scores. -/
lemma classify_paper_eq (t su : String) :
    classify_paper t su =
      (if score hardware_keywords (combinedText t su) = 0 ∧
          score algorithms_keywords (combinedText t su) = 0 ∧
          score applications_keywords (combinedText t su) = 0 then
        fallback_category
      else if score hardware_keywords (combinedText t su) <
              score algorithms_keywords (combinedText t su) then
        (if score algorithms_keywords (combinedText t su) <
            score applications_keywords (combinedText t su)
         then "👁️ Applications & Sensing" else "🧠 Algorithms & Theory")
      else if score hardware_keywords (combinedText t su) <
              score applications_keywords (combinedText t su)
           then "👁️ Applications & Sensing"
      else "🛠 Hardware & Materials") := by
  have h : classify_paper t su =
      (if getScore (category_scores (combinedText t su))
          (dict_max (category_scores (combinedText t su))).1 = 0
       then fallback_category
       else (dict_max (category_scores (combinedText t su))).1) := rfl
  rw [h]
  have hcs : category_scores (combinedText t su) =
      [("🛠 Hardware & Materials", score hardware_keywords (combinedText t su)),
       ("🧠 Algorithms & Theory", score algorithms_keywords (combinedText t su)),
       ("👁️ Applications & Sensing",
        score applications_keywords (combinedText t su))] := rfl
  rw [hcs, classify_pick]

/-- `classify_paper` always lands in the configured names plus the fallback. -/
lemma classify_paper_mem (t su : String) :
    classify_paper t su ∈
      ["🛠 Hardware & Materials", "🧠 Algorithms & Theory",
       "👁️ Applications & Sensing", fallback_category] := by
  rw [classify_paper_eq]
  split
  · simp
  · split
    · split <;> simp
    · split <;> simp

/-!
## Grouping lemmas
-/

/-- Appending to a bucket never changes the set of keys. -/
lemma appendTo_map_fst (gs : List (String × List Paper)) (c : String) (p : Paper) :
    (appendTo gs c p).map Prod.fst = gs.map Prod.fst := by
  induction gs with
  | nil => rfl
  | cons g gs ih =>
    simp only [appendTo, List.map_cons] at ih ⊢
    by_cases h : g.1 = c <;> simp [h, ih]

/-- Appending under a key that is absent is a no-op. -/
lemma appendTo_not_mem (gs : List (String × List Paper)) (c : String) (p : Paper)
    (h : c ∉ gs.map Prod.fst) : appendTo gs c p = gs := by
  induction gs with
  | nil => rfl
  | cons g gs ih =>
    simp only [List.map_cons, List.mem_cons, not_or] at h
    simp only [appendTo, List.map_cons] at ih ⊢
    rw [if_neg (fun hq => h.1 hq.symm), ih h.2]

/-- Appending under a different key leaves a bucket unchanged. -/
lemma bucket_appendTo_ne (gs : List (String × List Paper)) {c c' : String} (p : Paper)
    (h : c ≠ c') : bucket (appendTo gs c' p) c = bucket gs c := by
  induction gs with
  | nil => rfl
  | cons g gs ih =>
    by_cases hg : g.1 = c'
    · simp only [appendTo, List.map_cons, if_pos hg, bucket]
      rw [if_neg (hg ▸ fun hq => h hq.symm), if_neg (hg ▸ fun hq => h hq.symm)]
      simpa [appendTo] using ih
    · simp only [appendTo, List.map_cons, if_neg hg, bucket]
      by_cases hgc : g.1 = c
      · rw [if_pos hgc, if_pos hgc]
      · rw [if_neg hgc, if_neg hgc]
        simpa [appendTo] using ih

/-- Appending under a present key appends to that bucket. -/
lemma bucket_appendTo_eq (gs : List (String × List Paper)) (c : String) (p : Paper)
    (h : c ∈ gs.map Prod.fst) : bucket (appendTo gs c p) c = bucket gs c ++ [p] := by
  induction gs with
  | nil => simp at h
  | cons g gs ih =>
    by_cases hg : g.1 = c
    · simp only [appendTo, List.map_cons, if_pos hg, bucket]
    · simp only [appendTo, List.map_cons, if_neg hg, bucket]
      simp only [List.map_cons, List.mem_cons] at h
      rcases h with h | h
      · exact absurd h.symm hg
      · simpa [appendTo] using ih h

/-- The grouping fold never changes the set of keys. -/
lemma map_fst_foldl (results : List Paper) :
    ∀ gs : List (String × List Paper),
      ((results.foldl
        (fun gs p => appendTo gs (classify_paper p.title p.summary) p) gs).map
          Prod.fst) = gs.map Prod.fst := by
  induction results with
  | nil => intro gs; rfl
  | cons q l ih =>
    intro gs
    simp only [List.foldl_cons]
    rw [ih, appendTo_map_fst]

/-- Each bucket of the grouping fold collects, in input order, exactly the
records the classifier sends to its key. -/
lemma bucket_foldl (results : List Paper) :
    ∀ (gs : List (String × List Paper)) (c : String),
      (∀ p ∈ results, classify_paper p.title p.summary ∈ gs.map Prod.fst) →
      bucket (results.foldl
          (fun gs p => appendTo gs (classify_paper p.title p.summary) p) gs) c
        = bucket gs c ++
            results.filter (fun p => classify_paper p.title p.summary == c) := by
  induction results with
  | nil => intro gs c _; simp
  | cons q l ih =>
    intro gs c H
    simp only [List.foldl_cons, List.filter_cons]
    rw [ih _ c (fun p hp => by
      rw [appendTo_map_fst]; exact H p (List.mem_cons_of_mem q hp))]
    by_cases h : classify_paper q.title q.summary = c
    · rw [if_pos (by simp [h]), ← h,
        bucket_appendTo_eq gs _ q (H q (List.mem_cons_self q l)), h,
        List.append_assoc, List.singleton_append]
    · rw [if_neg (by simp [h]), bucket_appendTo_ne gs q (fun hq => h hq.symm)]

/-- Appending a paper under a present key adds exactly it to the flattened
contents, provided the keys are distinct. -/
lemma flatten_appendTo (gs : List (String × List Paper)) (c : String) (p : Paper)
    (hnd : (gs.map Prod.fst).Nodup) (h : c ∈ gs.map Prod.fst) :
    (((appendTo gs c p).map Prod.snd).flatten).Perm
      (((gs.map Prod.snd).flatten) ++ [p]) := by
  induction gs with
  | nil => simp at h
  | cons g gs ih =>
    simp only [List.map_cons, List.nodup_cons] at hnd
    by_cases hg : g.1 = c
    · have hnotin : c ∉ gs.map Prod.fst := hg ▸ hnd.1
      simp only [appendTo, List.map_cons, if_pos hg]
      have hrest : gs.map (fun g => if g.1 = c then (g.1, g.2 ++ [p]) else g) = gs := by
        simpa [appendTo] using appendTo_not_mem gs c p hnotin
      rw [hrest]
      simp only [List.map_cons, List.flatten_cons]
      rw [List.append_assoc, List.append_assoc]
      exact List.Perm.append_left g.2 List.perm_append_comm
    · simp only [List.map_cons, List.mem_cons] at h
      rcases h with h | h
      · exact absurd h.symm hg
      · simp only [appendTo, List.map_cons, if_neg hg, List.flatten_cons]
        rw [List.append_assoc]
        exact List.Perm.append_left g.2 (by simpa [appendTo] using ih hnd.2 h)

/-- The grouping fold appends each classified record once to the flattened
contents. -/
lemma flatten_foldl (results : List Paper) :
    ∀ gs : List (String × List Paper),
      (gs.map Prod.fst).Nodup →
      (∀ p ∈ results, classify_paper p.title p.summary ∈ gs.map Prod.fst) →
      (((results.foldl
          (fun gs p => appendTo gs (classify_paper p.title p.summary) p) gs).map
            Prod.snd).flatten).Perm
        (((gs.map Prod.snd).flatten) ++ results) := by
  induction results with
  | nil => intro gs _ _; simp
  | cons q l ih =>
    intro gs hnd H
    simp only [List.foldl_cons]
    have hstep := flatten_appendTo gs _ q hnd (H q (List.mem_cons_self q l))
    have hrec := ih (appendTo gs (classify_paper q.title q.summary) q)
      (by rw [appendTo_map_fst]; exact hnd)
      (fun p hp => by
        rw [appendTo_map_fst]; exact H p (List.mem_cons_of_mem q hp))
    refine hrec.trans ?_
    refine (hstep.append_right l).trans ?_
    rw [List.append_assoc, List.singleton_append]

/-!
## Renderer lemmas
-/

/-- Concatenation of a list of markdown fragments. -/
def concatAll (l : List String) : String := l.foldr (· ++ ·) ""

/-- The markdown block one rendered section amounts to: its heading, its
papers' blocks in bucket order, and the trailing separator. -/
def section_block (papers : List Paper) (category : String) : String :=
  "## " ++ category ++ "\n\n" ++ concatAll (papers.map render_paper) ++ "---\n\n"

/-- The per-paper accumulation loop appends the papers' blocks in order. -/
lemma foldl_render_papers (papers : List Paper) :
    ∀ init : String,
      papers.foldl (fun md2 p => md2 ++ render_paper p) init
        = init ++ concatAll (papers.map render_paper) := by
  induction papers with
  | nil => intro init; simp [concatAll, String.append_empty]
  | cons p papers ih =>
    intro init
    simp only [List.foldl_cons, List.map_cons]
    rw [ih]
    show _ = init ++ (render_paper p ++ concatAll (papers.map render_paper))
    rw [String.append_assoc]

/-- The section loop of `main` renders, from any accumulated prefix, exactly
the non-empty buckets of the iterated list, in iteration order. -/
lemma foldl_render_sections (gs : List (String × List Paper)) (l : List String) :
    ∀ init : String,
      l.foldl
        (fun md category =>
          let papers := bucket gs category
          if papers.isEmpty then md
          else
            (papers.foldl (fun md2 p => md2 ++ render_paper p)
              (md ++ ("## " ++ category ++ "\n\n"))) ++ "---\n\n") init
      = init ++ concatAll
          ((l.filter (fun c => !(bucket gs c).isEmpty)).map
            (fun c => section_block (bucket gs c) c)) := by
  induction l with
  | nil => intro init; simp [concatAll, String.append_empty]
  | cons c l ih =>
    intro init
    simp only [List.foldl_cons, List.filter_cons]
    by_cases h : (bucket gs c).isEmpty
    · rw [if_pos h] at *
      rw [ih init, h]
      rfl
    · rw [if_neg h]
      rw [ih, foldl_render_papers]
      have hb : (!(bucket gs c).isEmpty) = true := by
        simp only [Bool.not_eq_true']
        exact Bool.not_eq_true _ ▸ h
      rw [hb]
      simp [concatAll, section_block, String.append_assoc]

/-- Every bucket of the freshly initialised grouping dict is empty. -/
lemma bucket_initial (c : String) : bucket initial_groups c = [] := by
  have h : initial_groups =
      [("🛠 Hardware & Materials", []), ("🧠 Algorithms & Theory", []),
       ("👁️ Applications & Sensing", []), (fallback_category, [])] := rfl
  rw [h]
  simp only [bucket]
  split_ifs <;> rfl

/-!
## Claim theorems
-/

/-- C1: `classify_paper` returns the fallback category exactly when no
keyword of any configured category occurs as a substring of the lowercased
concatenation of title and summary; otherwise it returns one of the three
configured category names, so the result is always one name drawn from the
configured categories plus the fallback. -/
theorem claim_C1_total_classification_fallback (t su : String) :
    (classify_paper t su = fallback_category ↔
      ∀ pair ∈ CATEGORIES, ∀ kw ∈ pair.2, ¬ occursIn kw (combinedText t su))
    ∧ classify_paper t su ∈
        ["🛠 Hardware & Materials", "🧠 Algorithms & Theory",
         "👁️ Applications & Sensing", fallback_category] := by
  have hiff : (score hardware_keywords (combinedText t su) = 0 ∧
        score algorithms_keywords (combinedText t su) = 0 ∧
        score applications_keywords (combinedText t su) = 0) ↔
      (∀ pair ∈ CATEGORIES, ∀ kw ∈ pair.2, ¬ occursIn kw (combinedText t su)) := by
    rw [score_eq_zero_iff, score_eq_zero_iff, score_eq_zero_iff]
    constructor
    · rintro ⟨h1, h2, h3⟩ pair hpair kw hkw
      simp only [CATEGORIES, List.mem_cons, List.not_mem_nil, or_false] at hpair
      rcases hpair with rfl | rfl | rfl
      · exact h1 kw hkw
      · exact h2 kw hkw
      · exact h3 kw hkw
    · intro h
      exact ⟨fun kw hkw => h ("🛠 Hardware & Materials", hardware_keywords)
          (by simp [CATEGORIES]) kw hkw,
        fun kw hkw => h ("🧠 Algorithms & Theory", algorithms_keywords)
          (by simp [CATEGORIES]) kw hkw,
        fun kw hkw => h ("👁️ Applications & Sensing", applications_keywords)
          (by simp [CATEGORIES]) kw hkw⟩
  refine ⟨?_, classify_paper_mem t su⟩
  rw [classify_paper_eq]
  by_cases h0 : score hardware_keywords (combinedText t su) = 0 ∧
      score algorithms_keywords (combinedText t su) = 0 ∧
      score applications_keywords (combinedText t su) = 0
  · rw [if_pos h0]
    exact iff_of_true rfl (hiff.mp h0)
  · rw [if_neg h0]
    refine iff_of_false ?_ (fun hr => h0 (hiff.mpr hr))
    split_ifs <;> decide

/-- C1 witness: at empty inputs the fallback is returned (all keywords
absent); a keyword-bearing title lands in the configured-or-fallback set. -/
theorem claim_C1_witness :
    classify_paper "" "" = fallback_category ∧
    classify_paper "memristor crossbar" "" ∈
      ["🛠 Hardware & Materials", "🧠 Algorithms & Theory",
       "👁️ Applications & Sensing", fallback_category] :=
  ⟨(claim_C1_total_classification_fallback "" "").1.mpr (by decide),
   (claim_C1_total_classification_fallback "memristor crossbar" "").2⟩

/-- C2 counterexample: at empty title and summary every configured category
attains the (zero) maximal score, yet `classify_paper` returns the fallback,
not the first category of the fixed iteration order. -/
theorem claim_C2_counterexample :
    score hardware_keywords (combinedText "" "") = 0 ∧
    score algorithms_keywords (combinedText "" "") = 0 ∧
    score applications_keywords (combinedText "" "") = 0 ∧
    classify_paper "" "" ≠ "🛠 Hardware & Materials" ∧
    classify_paper "" "" = fallback_category := by decide

/-- C2 (amended): whenever the highest category score is positive and is
attained by more than one configured category, `classify_paper` returns the
category that appears first in the fixed iteration order among those
attaining it. -/
theorem claim_C2_tie_break_first (t su : String) (s1 s2 s3 m : Nat)
    (e1 : s1 = score hardware_keywords (combinedText t su))
    (e2 : s2 = score algorithms_keywords (combinedText t su))
    (e3 : s3 = score applications_keywords (combinedText t su))
    (em : m = max s1 (max s2 s3))
    (hpos : 0 < m)
    (htie : (s1 = m ∧ s2 = m) ∨ (s1 = m ∧ s3 = m) ∨ (s2 = m ∧ s3 = m)) :
    classify_paper t su =
      if s1 = m then "🛠 Hardware & Materials"
      else if s2 = m then "🧠 Algorithms & Theory"
      else "👁️ Applications & Sensing" := by
  rw [classify_paper_eq, ← e1, ← e2, ← e3]
  split_ifs <;> first | rfl | omega

/-- C2 witness: a text with exactly one Algorithms keyword and one
Applications keyword ties at score 1; the earlier category (Algorithms)
wins. -/
theorem claim_C2_witness :
    0 = score hardware_keywords (combinedText "snn vision" "") ∧
    1 = score algorithms_keywords (combinedText "snn vision" "") ∧
    1 = score applications_keywords (combinedText "snn vision" "") ∧
    classify_paper "snn vision" "" = "🧠 Algorithms & Theory" := by
  refine ⟨by decide, by decide, by decide, ?_⟩
  have h := claim_C2_tie_break_first "snn vision" "" 0 1 1 1
    (by decide) (by decide) (by decide) (by decide) (by decide)
    (Or.inr (Or.inr ⟨rfl, rfl⟩))
  simpa using h

/-- C3: for every input and every configured category, the score computed by
`classify_paper`'s scoring loop equals the number of that category's keywords
occurring at least once as a substring of the lowercased concatenation; a
keyword occurring many times contributes exactly 1. -/
theorem claim_C3_score_is_keyword_count (t su : String) (c : String)
    (kws : List String) (h : (c, kws) ∈ CATEGORIES) :
    getScore (category_scores (combinedText t su)) c
      = kws.countP (fun kw => occursIn kw (combinedText t su)) := by
  simp only [CATEGORIES, List.mem_cons, List.not_mem_nil, or_false,
    Prod.mk.injEq] at h
  rcases h with ⟨rfl, rfl⟩ | ⟨rfl, rfl⟩ | ⟨rfl, rfl⟩
  · rw [show getScore (category_scores (combinedText t su))
        "🛠 Hardware & Materials" = score hardware_keywords (combinedText t su)
        from rfl, score_eq_countP]
  · rw [show getScore (category_scores (combinedText t su))
        "🧠 Algorithms & Theory" = score algorithms_keywords (combinedText t su)
        from rfl, score_eq_countP]
  · rw [show getScore (category_scores (combinedText t su))
        "👁️ Applications & Sensing"
          = score applications_keywords (combinedText t su)
        from rfl, score_eq_countP]

/-- C3 witness: the Algorithms & Theory score of "SNNcore paper" is the
count of its keywords present ("snn" only, despite repetition inside a
word). -/
theorem claim_C3_witness :
    (("🧠 Algorithms & Theory", algorithms_keywords) ∈ CATEGORIES) ∧
    getScore (category_scores (combinedText "SNNcore paper" ""))
        "🧠 Algorithms & Theory"
      = algorithms_keywords.countP
          (fun kw => occursIn kw (combinedText "SNNcore paper" "")) :=
  ⟨by decide,
   claim_C3_score_is_keyword_count "SNNcore paper" "" "🧠 Algorithms & Theory"
     algorithms_keywords (by decide)⟩

/-- C4: keyword matching is pure substring containment with no word-boundary
check: the keyword "snn" matches inside the longer word "SNNcore", and
`classify_paper "SNNcore paper" ""` returns the Algorithms & Theory
category. -/
theorem claim_C4_substring_not_word_boundary :
    ("snn" ∈ algorithms_keywords) ∧
    occursIn "snn" (combinedText "SNNcore paper" "") = true ∧
    classify_paper "SNNcore paper" "" = "🧠 Algorithms & Theory" := by decide

/-- C5: the grouping is a partition of the input: the bucket keys are the
configured categories plus the always-present fallback; each bucket holds,
in input order, exactly the records classified to it; and the flattened
buckets are a permutation of the input sequence. -/
theorem claim_C5_grouping_partition (results : List Paper) :
    (group_papers results).map Prod.fst =
      ["🛠 Hardware & Materials", "🧠 Algorithms & Theory",
       "👁️ Applications & Sensing", fallback_category]
    ∧ (∀ c : String, bucket (group_papers results) c =
        results.filter (fun p => classify_paper p.title p.summary == c))
    ∧ (((group_papers results).map Prod.snd).flatten).Perm results := by
  have hkeys : initial_groups.map Prod.fst =
      ["🛠 Hardware & Materials", "🧠 Algorithms & Theory",
       "👁️ Applications & Sensing", fallback_category] := rfl
  have hmem : ∀ p ∈ results,
      classify_paper p.title p.summary ∈ initial_groups.map Prod.fst := by
    intro p _
    rw [hkeys]
    exact classify_paper_mem p.title p.summary
  have hnd : (initial_groups.map Prod.fst).Nodup := by
    rw [hkeys]; decide
  refine ⟨?_, ?_, ?_⟩
  · rw [group_papers, map_fst_foldl, hkeys]
  · intro c
    rw [group_papers, bucket_foldl results initial_groups c hmem,
      bucket_initial, List.nil_append]
  · rw [group_papers]
    have h := flatten_foldl results initial_groups hnd hmem
    have hflat : ((initial_groups.map Prod.snd).flatten : List Paper) = [] := rfl
    rw [hflat, List.nil_append] at h
    exact h

/-- C6: for non-empty input, the rendered document is the header followed by
exactly one section block per category whose bucket is non-empty, emitted in
the fixed display order; a category with an empty bucket — including the
fallback — contributes no heading and no section at all. -/
theorem claim_C6_nonempty_sections (results : List Paper)
    (formatted_time : String) (h : results ≠ []) :
    generate_markdown results formatted_time
      = header_block formatted_time ++
        concatAll ((display_order.filter
            (fun c => !(bucket (group_papers results) c).isEmpty)).map
          (fun c => section_block (bucket (group_papers results) c) c)) := by
  have hne : results.isEmpty = false := by simp [h]
  simp only [generate_markdown, hne, Bool.false_eq_true, if_false]
  exact foldl_render_sections (group_papers results) display_order
    (header_block formatted_time)

/-- One concrete paper record used to instantiate the rendering theorems. -/
def sample_paper : Paper :=
  { title := "SNNcore paper"
    summary := "A study."
    entry_id := "http://arxiv.org/abs/0000.00000v1"
    published := ⟨2024, 1, 2⟩
    authors := ["A", "B"] }

/-- C6 witness: the section-structure equation evaluated at a one-paper
input. -/
theorem claim_C6_witness :
    ([sample_paper] ≠ ([] : List Paper)) ∧
    generate_markdown [sample_paper] "2024-01-02 06:00 UTC"
      = header_block "2024-01-02 06:00 UTC" ++
        concatAll ((display_order.filter
            (fun c => !(bucket (group_papers [sample_paper]) c).isEmpty)).map
          (fun c => section_block (bucket (group_papers [sample_paper]) c) c)) :=
  ⟨by decide,
   claim_C6_nonempty_sections [sample_paper] "2024-01-02 06:00 UTC" (by decide)⟩

/-- C7: the author-summary string joins the first three names with ", " and
appends " et al." when there are more than three names, and joins all names
otherwise; in particular for the four-, two- and zero-author instances. -/
theorem claim_C7_author_truncation :
    (∀ authors : List String,
      (authors.length > 3 →
        author_summary authors
          = String.intercalate ", " (authors.take 3) ++ " et al.") ∧
      (¬ authors.length > 3 →
        author_summary authors = String.intercalate ", " authors))
    ∧ author_summary ["A", "B", "C", "D"] = "A, B, C et al."
    ∧ author_summary ["A", "B"] = "A, B"
    ∧ author_summary [] = "" := by
  refine ⟨fun authors => ⟨fun h => ?_, fun h => ?_⟩, by decide, by decide,
    by decide⟩
  · simp [author_summary, h]
  · simp [author_summary, h]

/-- C7 witness: the truncation branch applied at the four-author instance. -/
theorem claim_C7_witness :
    (["A", "B", "C", "D"] : List String).length > 3 ∧
    author_summary ["A", "B", "C", "D"]
      = String.intercalate ", " ((["A", "B", "C", "D"] : List String).take 3)
          ++ " et al." :=
  ⟨by decide, (claim_C7_author_truncation.1 ["A", "B", "C", "D"]).1 (by decide)⟩

/-- C8: on empty input the renderer emits the header followed by the single
no-papers notice block and nothing else — a successfully rendered state with
no category section; no category heading occurs in the output. -/
theorem claim_C8_empty_input_notice :
    (∀ formatted_time : String,
      generate_markdown [] formatted_time
        = header_block formatted_time
            ++ "### 😴 No new papers found today.\n" ++ "Check back tomorrow!")
    ∧ display_order.all
        (fun c => !occursIn ("## " ++ c)
          (generate_markdown [] "2024-01-02 06:00 UTC")) = true :=
  ⟨fun _ => rfl, by decide⟩

/-- C9: a multi-word keyword can match across the title–summary boundary:
"liquid state" occurs in neither field alone, yet matches in the
space-joined text and contributes to the Algorithms & Theory score, which
decides the classification. -/
theorem claim_C9_cross_boundary_match :
    ("liquid state" ∈ algorithms_keywords) ∧
    occursIn "liquid state" (pyLower "Towards liquid") = false ∧
    occursIn "liquid state" (pyLower "state computing") = false ∧
    occursIn "liquid state" (combinedText "Towards liquid" "state computing")
      = true ∧
    score algorithms_keywords
      (combinedText "Towards liquid" "state computing") = 1 ∧
    classify_paper "Towards liquid" "state computing"
      = "🧠 Algorithms & Theory" := by decide

/-- C10: `clean_text` replaces each newline individually by one space and
strips only leading and trailing whitespace: two consecutive newlines become
two spaces, interior carriage returns, tabs and runs of spaces survive
unchanged, edges are trimmed, and no newline remains in any output. -/
theorem claim_C10_clean_text_newlines :
    clean_text "a\n\nb" = "a  b" ∧
    clean_text "a\r\tb  c" = "a\r\tb  c" ∧
    clean_text " \na\n\nb\n " = "a  b" ∧
    (∀ s : String, '\n' ∉ (clean_text s).data) := by
  refine ⟨by decide, by decide, by decide, ?_⟩
  intro s hmem
  have h1 : '\n' ∈ ((s.data.map (fun c => if c = '\n' then ' ' else c)).dropWhile
      Char.isWhitespace).reverse.dropWhile Char.isWhitespace := by
    rw [← List.mem_reverse]
    exact hmem
  have h2 : '\n' ∈ (s.data.map (fun c => if c = '\n' then ' ' else c)) := by
    have h3 := (List.dropWhile_sublist
      (l := ((s.data.map (fun c => if c = '\n' then ' ' else c)).dropWhile
        Char.isWhitespace).reverse) Char.isWhitespace).mem h1
    rw [List.mem_reverse] at h3
    exact (List.dropWhile_sublist Char.isWhitespace).mem h3
  rcases List.mem_map.mp h2 with ⟨c, _, hfc⟩
  by_cases hc : c = '\n'
  · rw [if_pos hc] at hfc
    exact absurd hfc (by decide)
  · rw [if_neg hc] at hfc
    exact hc hfc

/-- C10 witness: the no-surviving-newline fact instantiated at a concrete
string. -/
theorem claim_C10_witness : '\n' ∉ (clean_text "a\nb").data :=
  claim_C10_clean_text_newlines.2.2.2 "a\nb"
